import Mathlib

/-!
# Verification of the aimate agent runtime

Shallow embedding of the core components of the `spacex-maker/aimate`
repository (Java backend), together with proofs of the specified
properties.

Embedded components:

* `LlmClient.assembleStreamingResponse` — SSE streaming reassembly
  (`src/main/java/com/openforge/aimate/llm/LlmClient.java`)
* `AgentLoopService.executeStoreMemoryTool` and its dedup logic,
  `runThinkAndActLoop` / `executeLoop`
  (`src/main/java/com/openforge/aimate/agent/AgentLoopService.java`)
* `AgentContextService` (`load` / `append` / `initialize` / `trim`)
* `Resilience4jConfig` retry wiring (`config/Resilience4jConfig.java`)
* `AgentContextService.persist` save behaviour under optimistic-version
  collisions
* `UserApiKeyController.toResponse` / `maskKey` (`apikey/UserApiKeyController.java`)

Java `null`-able values are modelled as `Option`, Java lists as `List`,
`StringBuilder` as `String` accumulation, and the `HashMap<Integer,
ToolCallAccumulator>` as an association list with `computeIfAbsent`
append-if-absent semantics (entry iteration happens only through
`sorted(comparingByKey)`, which the embedding mirrors by sorting the
distinct keys).  I/O effects (token callback, context-store writes,
repository saves) are modelled as explicit traces.
-/

namespace Aimate

/-- Mirrors `com.openforge.aimate.llm.model.FunctionCallResult`:
the function part of a completed tool call. -/
structure FunctionCallResult where
  name : String
  arguments : String
deriving DecidableEq, Repr

/-- Mirrors `com.openforge.aimate.llm.model.ToolCall`. -/
structure ToolCall where
  id : String
  type : String
  function : FunctionCallResult
deriving DecidableEq, Repr

/-- Mirrors `com.openforge.aimate.llm.model.Message` (all fields nullable
except `role` in practice; the record itself allows null everywhere, and
the embedding keeps `role` total because every factory sets it). -/
structure Message where
  role : String
  content : Option String := none
  toolCalls : Option (List ToolCall) := none
  toolCallId : Option String := none
deriving DecidableEq, Repr

/-- Mirrors `Message.system(content)`. -/
def Message.system (content : String) : Message :=
  { role := "system", content := some content }

/-- Mirrors `Message.user(content)`. -/
def Message.user (content : String) : Message :=
  { role := "user", content := some content }

/-- Mirrors `Message.toolResult(toolCallId, result)`. -/
def Message.toolResult (toolCallId : String) (result : String) : Message :=
  { role := "tool", content := some result, toolCallId := some toolCallId }

/-- Mirrors `StreamingChunk.FunctionDelta`. -/
structure FunctionDelta where
  name : Option String := none
  arguments : Option String := none
deriving DecidableEq, Repr

/-- Mirrors `StreamingChunk.ToolCallDelta`. -/
structure ToolCallDelta where
  index : Option Int := none
  id : Option String := none
  type : Option String := none
  function : Option FunctionDelta := none
deriving DecidableEq, Repr

/-- Mirrors `StreamingChunk.DeltaMessage`. -/
structure DeltaMessage where
  role : Option String := none
  content : Option String := none
  toolCalls : Option (List ToolCallDelta) := none
deriving DecidableEq, Repr

/-- Mirrors `StreamingChunk.ChunkChoice`. -/
structure ChunkChoice where
  index : Int := 0
  delta : Option DeltaMessage := none
  finishReason : Option String := none
deriving DecidableEq, Repr

/-- Mirrors `com.openforge.aimate.llm.model.StreamingChunk` (one parsed
SSE data frame). -/
structure StreamingChunk where
  id : Option String := none
  object : Option String := none
  created : Option Int := none
  model : Option String := none
  choices : Option (List ChunkChoice) := none
deriving DecidableEq, Repr

/-- Mirrors `ChatResponse.Choice`. -/
structure Choice where
  index : Int
  message : Option Message
  finishReason : Option String
deriving DecidableEq, Repr

/-- Mirrors `ChatResponse.Usage`. -/
structure Usage where
  promptTokens : Int := 0
  completionTokens : Int := 0
  totalTokens : Int := 0
deriving DecidableEq, Repr

/-- Mirrors `com.openforge.aimate.llm.model.ChatResponse`. -/
structure ChatResponse where
  id : Option String
  object : Option String
  created : Option Int
  model : Option String
  choices : Option (List Choice)
  usage : Option Usage
deriving DecidableEq, Repr

/-- Mirrors `LlmClient.ToolCallAccumulator` with its Java field
initializers (`id = ""`, `type = "function"`, `name = ""`, empty
`argsBuilder`). -/
structure ToolCallAccumulator where
  id : String := ""
  type : String := "function"
  name : String := ""
  args : String := ""
deriving DecidableEq, Repr

/-- One pass of the inner `for (ToolCallDelta tcDelta : delta.toolCalls())`
body of `assembleStreamingResponse` on a single accumulator: every
non-null `id` / `type` / `function.name` overwrites the field, every
non-null `function.arguments` is appended to the builder. -/
def applyToolCallDelta (acc : ToolCallAccumulator) (d : ToolCallDelta) :
    ToolCallAccumulator :=
  let acc1 := match d.id with
    | some i => { acc with id := i }
    | none => acc
  let acc2 := match d.type with
    | some t => { acc1 with type := t }
    | none => acc1
  match d.function with
  | none => acc2
  | some f =>
    let acc3 := match f.name with
      | some n => { acc2 with name := n }
      | none => acc2
    match f.arguments with
    | some a => { acc3 with args := acc3.args ++ a }
    | none => acc3

/-- Effective index of a tool-call delta:
`tcDelta.index() != null ? tcDelta.index() : 0`. -/
def effIndex (d : ToolCallDelta) : Int :=
  d.index.getD 0

/-- Association-list lookup for the `index → accumulator` map. -/
def lookupAcc : List (Int × ToolCallAccumulator) → Int → Option ToolCallAccumulator
  | [], _ => none
  | p :: rest, i => if p.1 = i then some p.2 else lookupAcc rest i

/-- `toolCallMap.computeIfAbsent(idx, i -> new ToolCallAccumulator())`
followed by the in-place mutation of the entry: apply the delta to the
existing accumulator for `i`, or append a freshly initialized one. -/
def updateAcc : List (Int × ToolCallAccumulator) → Int → ToolCallDelta →
    List (Int × ToolCallAccumulator)
  | [], i, d => [(i, applyToolCallDelta {} d)]
  | p :: rest, i, d =>
    if p.1 = i then (i, applyToolCallDelta p.2 d) :: rest
    else p :: updateAcc rest i d

/-- The whole inner `for` loop over one chunk's list of tool-call deltas. -/
def applyToolCallDeltas (m : List (Int × ToolCallAccumulator))
    (ds : List ToolCallDelta) : List (Int × ToolCallAccumulator) :=
  ds.foldl (fun m d => updateAcc m (effIndex d) d) m

/-- Loop state of `assembleStreamingResponse`: the content
`StringBuilder`, the trace of `tokenCallback` invocations, the
`index → accumulator` map, and the three nullable locals. -/
structure StreamState where
  content : String := ""
  tokens : List String := []
  accs : List (Int × ToolCallAccumulator) := []
  respId : Option String := none
  respModel : Option String := none
  finish : Option String := none
deriving DecidableEq, Repr

/-- Body of the `for (String line : lines)` loop for one successfully
parsed chunk (everything after the `objectMapper.readValue` call). -/
def processChunk (s : StreamState) (c : StreamingChunk) : StreamState :=
  let s1 := { s with respId := if s.respId = none then c.id else s.respId,
                     respModel := if s.respModel = none then c.model else s.respModel }
  match c.choices with
  | none => s1
  | some [] => s1
  | some (ch :: _) =>
    let s2 := match ch.finishReason with
      | some fr => { s1 with finish := some fr }
      | none => s1
    match ch.delta with
    | none => s2
    | some d =>
      let s3 := match d.content with
        | some t =>
          if t = "" then s2
          else { s2 with content := s2.content ++ t, tokens := s2.tokens ++ [t] }
        | none => s2
      match d.toolCalls with
      | none => s3
      | some ds => { s3 with accs := applyToolCallDeltas s3.accs ds }

/-- `SSE_DATA_PREFIX` constant. -/
def sseDataPrefix : String := "data: "

/-- `SSE_DONE` constant. -/
def sseDone : String := "data: [DONE]"

/-- The `for (String line : lines)` loop of `assembleStreamingResponse`.
Lines that are empty or lack the data prefix are skipped; the done
sentinel breaks out; lines whose JSON payload fails to parse are skipped
with a warning.  JSON decoding (out of scope of the embedding, like the
rest of the wire format) is abstracted as the `parse` argument. -/
def processLines (parse : String → Option StreamingChunk) :
    List String → StreamState → StreamState
  | [], s => s
  | line :: rest, s =>
    if line.data = [] ∨ ¬ line.data.take 6 = sseDataPrefix.data then
      processLines parse rest s
    else if line = sseDone then s
    else
      match parse (String.mk (line.data.drop 6)) with
      | none => processLines parse rest s
      | some c => processLines parse rest (processChunk s c)

/-- Sorting used for `toolCallMap.entrySet().stream().sorted(Map.Entry.comparingByKey())`. -/
def sortKeys (l : List Int) : List Int := List.insertionSort (· ≤ ·) l

/-- Builds one `ToolCall` from a finished accumulator:
`new ToolCall(acc.id, acc.type, new FunctionCallResult(acc.name, acc.argsBuilder.toString()))`. -/
def mkToolCall (acc : ToolCallAccumulator) : ToolCall :=
  { id := acc.id, type := acc.type,
    function := { name := acc.name, arguments := acc.args } }

/-- The `if (!toolCallMap.isEmpty())` block: iterate entries in ascending
key order and build the tool-call list; `null` when no accumulator exists. -/
def buildToolCalls (accs : List (Int × ToolCallAccumulator)) :
    Option (List ToolCall) :=
  if accs = [] then none
  else some ((sortKeys (accs.map Prod.fst)).filterMap
    (fun i => (lookupAcc accs i).map mkToolCall))

/-- The tail of `assembleStreamingResponse`: build the assistant message
and wrap it into a `ChatResponse` shaped like the non-streaming one. -/
def buildResponse (s : StreamState) : ChatResponse :=
  let assistantMessage : Message :=
    { role := "assistant",
      content := if s.content = "" then none else some s.content,
      toolCalls := buildToolCalls s.accs,
      toolCallId := none }
  { id := s.respId, object := some "chat.completion", created := none,
    model := s.respModel,
    choices := some [{ index := 0, message := some assistantMessage,
                       finishReason := s.finish }],
    usage := none }

/-- `LlmClient.assembleStreamingResponse(lines, tokenCallback)`: returns
the assembled response together with the ordered trace of `tokenCallback`
invocations. -/
def assembleStreamingResponse (parse : String → Option StreamingChunk)
    (lines : List String) : ChatResponse × List String :=
  let s := processLines parse lines {}
  (buildResponse s, s.tokens)

/-! ## Observation functions on an SSE frame sequence

These recompute, directly from the line sequence, what each frame
contributes: they follow the same skip/done/parse control flow as
`processLines` but record the chunks instead of folding state. -/

/-- The chunks that the streaming loop actually decodes and processes,
in order (stops at the done sentinel, skips non-data and unparsable
lines). -/
def processedChunks (parse : String → Option StreamingChunk) :
    List String → List StreamingChunk
  | [] => []
  | line :: rest =>
    if line.data = [] ∨ ¬ line.data.take 6 = sseDataPrefix.data then
      processedChunks parse rest
    else if line = sseDone then []
    else
      match parse (String.mk (line.data.drop 6)) with
      | none => processedChunks parse rest
      | some c => c :: processedChunks parse rest

/-- The non-empty content delta carried by one chunk, if any
(choice 0's delta content, when the chunk has choices, a delta and a
non-null non-empty content). -/
def chunkContentDelta (c : StreamingChunk) : Option String :=
  match c.choices with
  | some (ch :: _) =>
    match ch.delta with
    | some d =>
      match d.content with
      | some t => if t = "" then none else some t
      | none => none
    | none => none
  | _ => none

/-- The tool-call deltas carried by one chunk (choice 0's delta
tool-call list, when present). -/
def chunkToolCallDeltas (c : StreamingChunk) : List ToolCallDelta :=
  match c.choices with
  | some (ch :: _) =>
    match ch.delta with
    | some d => d.toolCalls.getD []
    | none => []
  | _ => []

/-- The finish reason carried by one chunk (choice 0's, when the chunk
has choices). -/
def chunkFinish (c : StreamingChunk) : Option String :=
  match c.choices with
  | some (ch :: _) => ch.finishReason
  | _ => none

/-- All non-empty content deltas of the processed frames, in arrival
order. -/
def contentDeltas (parse : String → Option StreamingChunk)
    (lines : List String) : List String :=
  (processedChunks parse lines).filterMap chunkContentDelta

/-- All tool-call deltas of the processed frames, in arrival order. -/
def allDeltas (parse : String → Option StreamingChunk)
    (lines : List String) : List ToolCallDelta :=
  (processedChunks parse lines).flatMap chunkToolCallDeltas

/-- The tool-call deltas addressed to index `i`, in arrival order. -/
def deltasAt (parse : String → Option StreamingChunk)
    (lines : List String) (i : Int) : List ToolCallDelta :=
  (allDeltas parse lines).filter (fun d => effIndex d = i)

/-- Concatenation of a list of strings (the claim's "concatenation of
all non-empty content deltas in arrival order"). -/
def concatAll (l : List String) : String := l.foldl (· ++ ·) ""

/-- Keep the base value unless a later `some` overrides it (semantics of
`if (x != null) field = x;` repeated over a list). -/
def lastUpd (base : Option String) (l : List (Option String)) : Option String :=
  l.foldl (fun b o => match o with | some x => some x | none => b) base

/-- Keep the first non-null value (semantics of
`if (field == null) field = x;` repeated over a list). -/
def firstUpd (base : Option String) (l : List (Option String)) : Option String :=
  l.foldl (fun b o => if b = none then o else b) base

/-- First-occurrence deduplication of a key list, relative to a set of
already-present keys. -/
def dedupAux (seen : List Int) : List Int → List Int
  | [] => []
  | i :: rest =>
    if i ∈ seen then dedupAux seen rest
    else i :: dedupAux (i :: seen) rest

/-- Accumulator obtained by running a delta list against an optional
starting accumulator; `none` stays `none` only on the empty list (a
first delta creates the fresh accumulator, exactly like
`computeIfAbsent`). -/
def accumFrom : Option ToolCallAccumulator → List ToolCallDelta →
    Option ToolCallAccumulator
  | a, [] => a
  | none, d :: ds => accumFrom (some (applyToolCallDelta {} d)) ds
  | some a, d :: ds => accumFrom (some (applyToolCallDelta a d)) ds

/-- The per-index accumulator that the claim talks about: the fold of
all deltas addressed to index `i`. -/
def specAccAt (parse : String → Option StreamingChunk)
    (lines : List String) (i : Int) : Option ToolCallAccumulator :=
  accumFrom none (deltasAt parse lines i)

/-- Accessor mirroring `ChatResponse.firstMessage()` (total variant). -/
def respFirstMessage (r : ChatResponse) : Option Message :=
  match r.choices with
  | some (c :: _) => c.message
  | _ => none

/-- Accessor for the first choice's finish reason. -/
def respFirstFinish (r : ChatResponse) : Option String :=
  match r.choices with
  | some (c :: _) => c.finishReason
  | _ => none

/-- The distinct tool-call indices of the stream, in ascending order. -/
def ascendingIndices (parse : String → Option StreamingChunk)
    (lines : List String) : List Int :=
  sortKeys (dedupAux [] ((allDeltas parse lines).map effIndex))
/-- First tool-call fragment of the C1 witness stream (establishes id,
type and name). -/
def c1HeadDelta : ToolCallDelta :=
  { index := some 0, id := some "c1", type := some "function",
    function := some { name := some "store_memory" } }

/-- Second tool-call fragment of the C1 witness stream. -/
def c1ArgsDelta : ToolCallDelta :=
  { index := some 0, function := some { arguments := some "ab" } }

/-- The chunk wrapping of a delta message for the witness streams. -/
def wrapDelta (d : DeltaMessage) : StreamingChunk :=
  { choices := some [{ delta := some d }] }

/-- Concrete four-frame SSE stream for the C1 witness: a tool-call head
frame, an arguments fragment, a content token, and a closing frame with
`finish_reason`. -/
def c1Frames : List StreamingChunk :=
  [{ id := some "r1",
     choices := some [{ delta := some { toolCalls := some [c1HeadDelta] } }] },
   wrapDelta { toolCalls := some [c1ArgsDelta] },
   wrapDelta { content := some "Hi" },
   { choices := some [{ delta := some {}, finishReason := some "tool_calls" }] }]

/-- Parse oracle for the C1 witness: payload `"k"` maps to the k-th frame. -/
def c1Parse (s : String) : Option StreamingChunk :=
  if s = "1" then c1Frames.get? 0
  else if s = "2" then c1Frames.get? 1
  else if s = "3" then c1Frames.get? 2
  else if s = "4" then c1Frames.get? 3
  else none

/-- Line sequence for the C1 witness (with a noise line and the done
sentinel). -/
def c1Lines : List String :=
  ["data: 1", "data: 2", ": keepalive", "data: 3", "data: 4", "data: [DONE]"]
/-- The function-name fragment carried by one tool-call delta. -/
def deltaName (d : ToolCallDelta) : Option String :=
  d.function.bind FunctionDelta.name

/-- The arguments fragment carried by one tool-call delta. -/
def deltaArgs (d : ToolCallDelta) : Option String :=
  d.function.bind FunctionDelta.arguments

/-- Last-write-wins over a list of optional values, starting from a
default. -/
def lastSet (base : String) : List (Option String) → String
  | [] => base
  | none :: l => lastSet base l
  | some x :: l => lastSet x l
/-- Two deltas for index 0 carrying different non-null ids, in order
`"a"` then `"b"`. -/
def c2Parse (s : String) : Option StreamingChunk :=
  if s = "1" then
    some (wrapDelta { toolCalls := some [{ index := some 0, id := some "a" }] })
  else if s = "2" then
    some (wrapDelta { toolCalls := some [{ index := some 0, id := some "b" }] })
  else none

/-- Line sequence for the C2 counterexample. -/
def c2Lines : List String := ["data: 1", "data: 2", "data: [DONE]"]

/-! ## store_memory: normalization and per-session dedup
(`AgentLoopService.executeStoreMemoryTool`, `normalizeForDedupe`,
`prefixOf`) -/

/-- The character class of the Java regex `\s` (also the ASCII fragment
of `Character.isWhitespace`, which `String.isBlank` uses): space, tab,
line feed, vertical tab, form feed, carriage return. -/
def isJavaSpace (c : Char) : Bool :=
  c = ' ' || c = '\t' || c = '\n' || c = Char.ofNat 11 || c = Char.ofNat 12 || c = '\r'

/-- `String.isBlank()`: every character is whitespace (true for the
empty string; `args.path("content").asText()` yields `""` when the
field is missing, so the Java `content == null` guard is subsumed). -/
def javaIsBlank (s : String) : Bool :=
  s.data.all isJavaSpace

/-- `String.trim()`: strip characters with code point ≤ U+0020 from both
ends. -/
def javaTrim (l : List Char) : List Char :=
  ((l.dropWhile (fun c => c.toNat ≤ 32)).reverse.dropWhile
    (fun c => c.toNat ≤ 32)).reverse

/-- ASCII fragment of `String.toLowerCase()` (the default-locale Unicode
mapping restricted to A–Z, which is all the dedup property depends on). -/
def asciiLower (c : Char) : Char :=
  if 'A' ≤ c ∧ c ≤ 'Z' then Char.ofNat (c.toNat + 32) else c

/-- Worker for `collapseWs`: `inRun` records whether the previous
character belonged to a whitespace run already replaced by one space. -/
def collapseWsAux (inRun : Bool) : List Char → List Char
  | [] => []
  | c :: rest =>
    if isJavaSpace c then
      if inRun then collapseWsAux true rest
      else ' ' :: collapseWsAux true rest
    else c :: collapseWsAux false rest

/-- `replaceAll("\\s+", " ")`: collapse every maximal run of whitespace
into a single space. -/
def collapseWs (l : List Char) : List Char := collapseWsAux false l

/-- `AgentLoopService.normalizeForDedupe(content)`:
`content.trim().toLowerCase().replaceAll("\\s+", " ")`. -/
def normalizeForDedupe (content : String) : String :=
  String.mk (collapseWs ((javaTrim content.data).map asciiLower))

/-- `STORE_MEMORY_PREFIX_LEN`. -/
def storeMemoryPrefixLen : Nat := 15

/-- `AgentLoopService.prefixOf(s, maxLen)`. -/
def prefixOf (s : String) (maxLen : Nat) : String :=
  if s.data = [] then ""
  else if s.data.length ≤ maxLen then s
  else String.mk (s.data.take maxLen)

/-- Result of one `executeStoreMemoryTool` invocation: the updated
per-session set of normalized contents, the string returned to the
model, and whether a memory row was actually inserted.  The
`rememberPersists` argument is the environment's answer to whether the
`LongTermMemoryService.remember` call reaches `milvusClient.insert`
(remember returns `void`, skips silently when Milvus is unavailable and
catches every exception, so its outcome is invisible to the caller). -/
structure StoreToolResult where
  seen : List String
  reply : String
  stored : Bool
deriving DecidableEq, Repr

/-- `AgentLoopService.executeStoreMemoryTool(sessionId, argumentsJson)`
after JSON argument extraction, for a session whose dedup set is
`seen`. -/
def executeStoreMemoryTool (rememberPersists : Bool) (seen : List String)
    (content : String) : StoreToolResult :=
  if javaIsBlank content then
    { seen := seen,
      reply := "[ToolError] store_memory called with empty content — skipping.",
      stored := false }
  else
    let normalized := normalizeForDedupe content
    if normalized ∈ seen then
      { seen := seen,
        reply := "Memory already stored previously; skipping duplicate. Reply to the user now.",
        stored := false }
    else if seen.any (fun existing =>
        prefixOf normalized storeMemoryPrefixLen =
        prefixOf existing storeMemoryPrefixLen) then
      { seen := seen,
        reply := "Already stored similar content. Reply to the user in natural language now.",
        stored := false }
    else
      { seen := normalized :: seen,
        reply := "Memory stored successfully.",
        stored := rememberPersists }

/-! ## Agent loop (`AgentLoopService.runThinkAndActLoop` / `executeLoop`)
and the per-iteration context writes -/

/-- `AgentSession.SessionStatus`. -/
inductive SessionStatus
  | PENDING
  | RUNNING
  | PAUSED
  | COMPLETED
  | FAILED
deriving DecidableEq, Repr

/-- `MAX_ITERATIONS`. -/
def maxIterations : Nat := 30

/-- `ChatResponse.hasToolCalls()` reduced to the assistant message:
non-null and non-empty tool-call list. -/
def hasToolCallsMsg (m : Message) : Bool :=
  match m.toolCalls with
  | some (_ :: _) => true
  | _ => false

/-- `runThinkAndActLoop` for a session that stays RUNNING: `oracle i`
is the assembled assistant message that streaming returns in iteration
`i`, and `n` is the session's persisted iteration counter.  Each pass
reloads the counter, increments it, streams, and either returns the
content (no tool calls) or executes tools, persists the counter, and
loops unless `iteration >= MAX_ITERATIONS`.  Returns the loop's result
(the answer, or null) and the final iteration counter. -/
def runThinkAndActLoop (oracle : Nat → Message) (n : Nat) :
    Option String × Nat :=
  let iteration := n + 1
  let assistantMessage := oracle iteration
  if hasToolCallsMsg assistantMessage then
    if maxIterations ≤ iteration then (none, iteration)
    else runThinkAndActLoop oracle iteration
  else (assistantMessage.content, iteration)
termination_by maxIterations - n
decreasing_by
  simp only [maxIterations] at *
  omega

/-- The session fields that `executeLoop` finalizes. -/
structure SessionOutcome where
  status : SessionStatus
  result : Option String
  errorMessage : Option String
  iterationCount : Nat
deriving DecidableEq, Repr

/-- Tail of `AgentLoopService.executeLoop` (steps after the inner loop):
a non-null answer marks the session COMPLETED with the answer as
result; a null answer calls
`failSession(session, "Max iterations (%d) reached without final answer.")`. -/
def executeLoop (oracle : Nat → Message) : SessionOutcome :=
  let r := runThinkAndActLoop oracle 0
  match r.1 with
  | some a =>
    { status := SessionStatus.COMPLETED, result := some a,
      errorMessage := none, iterationCount := r.2 }
  | none =>
    { status := SessionStatus.FAILED, result := none,
      errorMessage := some "Max iterations (30) reached without final answer.",
      iterationCount := r.2 }

/-- A write operation against the context store
(`AgentContextService`). -/
inductive ContextOp
  | append (msgs : List Message)
  | init (msgs : List Message)
deriving DecidableEq, Repr

/-- The context-store writes issued by one iteration of the decide/act
phase of `runThinkAndActLoop`: when the assistant message has tool
calls, the body builds `toAppend` starting from the assistant message,
adds one `Message.toolResult(toolCall.id, result)` per call in arrival
order, and issues a single `contextService.append(toAppend)`; otherwise
the iteration writes nothing to context. -/
def iterationContextWrites (assistantMessage : Message)
    (execTool : ToolCall → String) : List ContextOp :=
  if hasToolCallsMsg assistantMessage then
    let calls := assistantMessage.toolCalls.getD []
    let toAppend := calls.foldl
      (fun acc toolCall =>
        acc ++ [Message.toolResult toolCall.id (execTool toolCall)])
      [assistantMessage]
    [ContextOp.append toAppend]
  else []

/-! ## Context window store (`AgentContextService`) -/

/-- `MAX_CONTEXT_MESSAGES`. -/
def maxContextMessages : Nat := 50

/-- `AgentContextService.trim(context)`: when the list exceeds the
ceiling, keep the first message iff its role is `system`, then keep the
most recent `MAX - 1` (with system) or `MAX` (without) messages. -/
def trim (context : List Message) : List Message :=
  if context.length ≤ maxContextMessages then context
  else
    match context with
    | [] => []
    | m0 :: _ =>
      if m0.role = "system" then
        m0 :: context.drop (context.length - (maxContextMessages - 1))
      else
        context.drop (context.length - maxContextMessages)

/-- One store call: `init` mirrors `initialize` (replace), `append`
loads-appends; both
trim before persisting (`stored` is the persisted message list the next
`load` returns). -/
def applyCtxCommand (stored : List Message) : ContextOp → List Message
  | ContextOp.init msgs => trim msgs
  | ContextOp.append msgs => trim (stored ++ msgs)

/-- A sequence of store calls against a session's context window. -/
def applyCtxCommands (stored : List Message) (cmds : List ContextOp) :
    List Message :=
  cmds.foldl applyCtxCommand stored

/-! ## Router retry wiring (`Resilience4jConfig`) -/

/-- The retry-relevant parts of a resilience4j `RetryConfig`.
Modelled library semantics: the wait before the k-th re-attempt is
`intervalFunctionMs k` when an interval function is configured, and the
constant `waitDurationMs` otherwise — `.waitDuration(d)` alone
configures a fixed interval, an exponential 1 s → 2 s → 4 s schedule
would require `IntervalFunction.ofExponentialBackoff`. -/
structure RetryConfig where
  maxAttempts : Nat
  waitDurationMs : Nat
  intervalFunctionMs : Option (Nat → Nat)

/-- The waits (ms) between attempts for a call that keeps failing until
the attempt budget is exhausted. -/
def retryWaits (cfg : RetryConfig) : List Nat :=
  (List.range (cfg.maxAttempts - 1)).map (fun k =>
    match cfg.intervalFunctionMs with
    | some f => f (k + 1)
    | none => cfg.waitDurationMs)

/-- `Resilience4jConfig.retryRegistry()`: `maxAttempts(3)`,
`waitDuration(Duration.ofSeconds(1))`, `retryExceptions(IOException.class)`,
no interval function. -/
def llmRetryConfig : RetryConfig :=
  { maxAttempts := 3, waitDurationMs := 1000, intervalFunctionMs := none }

/-- The wait schedule the spec describes: exponential backoff starting
at 1 s (1 s then 2 s between the three attempts). -/
def specBackoffWaits : List Nat := [1000, 2000]

/-- The exception classes that reach the Retry decorator from
`LlmClient`. -/
inductive ThrownKind
  | ioException
  | llmException
  | llmRateLimit
deriving DecidableEq, Repr

/-- `retryExceptions(IOException.class)`: the Retry re-attempts exactly
when the thrown exception is an `IOException`. -/
def retryOn : ThrownKind → Bool
  | ThrownKind.ioException => true
  | _ => false

/-- How `LlmClient` surfaces each failure: transport failures are
wrapped into `LlmException` (a `RuntimeException`), HTTP 429 throws
`LlmRateLimitException`, any other non-2xx throws `LlmException`. -/
inductive LlmFailure
  | network
  | rateLimited
  | providerStatus (status : Nat)
deriving DecidableEq, Repr

/-- The exception class `LlmClient` throws for each failure kind. -/
def clientThrow : LlmFailure → ThrownKind
  | LlmFailure.network => ThrownKind.llmException
  | LlmFailure.rateLimited => ThrownKind.llmRateLimit
  | LlmFailure.providerStatus _ => ThrownKind.llmException

/-- Number of call attempts the Retry decorator makes when the
decorated supplier keeps throwing `kind`: one initial attempt plus
re-attempts only while the predicate matches, capped by the budget. -/
def retryAttempts (cfg : RetryConfig) (kind : ThrownKind) : Nat :=
  if retryOn kind then cfg.maxAttempts else 1

/-! ## Session save under optimistic-version collisions
(`AgentContextService.persist`, session saves in `runThinkAndActLoop`) -/

/-- Outcome of one repository `save` of the session row. -/
inductive SaveOutcome
  | ok
  | conflict
deriving DecidableEq, Repr

/-- The repository operations a persist performs. -/
inductive RepoStep
  | refetchById
  | save
deriving DecidableEq, Repr

/-- `AgentContextService.persist(session, context)` (the same shape as
the session saves in `runThinkAndActLoop`): reload the row by primary
id, set the field, `save` exactly once; whatever that single save
throws propagates to the caller.  `outcome k` is what the k-th save
attempt would return if issued. -/
def persistSession (outcome : Nat → SaveOutcome) : List RepoStep × Bool :=
  ([RepoStep.refetchById, RepoStep.save], outcome 0 = SaveOutcome.ok)

/-- Modelled from the spec: "Optimistic-version collisions on session
save are retried by refetch-then-save up to 3 times, then surfaced" —
the claimed behaviour, for comparison with `persistSession`. -/
def specRetryPersist (outcome : Nat → SaveOutcome) : List RepoStep × Bool :=
  if outcome 0 = SaveOutcome.ok then
    ([RepoStep.refetchById, RepoStep.save], true)
  else if outcome 1 = SaveOutcome.ok then
    ([RepoStep.refetchById, RepoStep.save, RepoStep.refetchById,
      RepoStep.save], true)
  else if outcome 2 = SaveOutcome.ok then
    ([RepoStep.refetchById, RepoStep.save, RepoStep.refetchById,
      RepoStep.save, RepoStep.refetchById, RepoStep.save], true)
  else
    ([RepoStep.refetchById, RepoStep.save, RepoStep.refetchById,
      RepoStep.save, RepoStep.refetchById, RepoStep.save], false)

/-! ## User API-key responses (`UserApiKeyController`) -/

/-- `UserApiKey.KeyType`. -/
inductive KeyType
  | LLM
  | EMBEDDING
deriving DecidableEq, Repr

/-- The `UserApiKey` entity fields that `toResponse` reads. -/
structure UserApiKey where
  id : Option Nat
  provider : String
  keyType : KeyType
  label : Option String
  keyValue : Option String
  baseUrl : Option String
  model : Option String
  isDefault : Bool
  isActive : Bool
  createTime : Option String
deriving DecidableEq, Repr

/-- `UserApiKeyController.ApiKeyResponse` (note: no `keyValue` field). -/
structure ApiKeyResponse where
  id : Option Nat
  provider : String
  keyType : KeyType
  label : Option String
  maskedKey : String
  baseUrl : Option String
  model : Option String
  isDefault : Bool
  isActive : Bool
  createTime : Option String
deriving DecidableEq, Repr

/-- `UserApiKeyController.maskKey(key)`. -/
def maskKey (key : Option String) : String :=
  match key with
  | none => "******"
  | some k =>
    if k.data.length ≤ 6 then "******"
    else "sk-***..." ++ String.mk (k.data.drop (k.data.length - 6))

/-- `UserApiKeyController.toResponse(k)`. -/
def toResponse (k : UserApiKey) : ApiKeyResponse :=
  { id := k.id, provider := k.provider, keyType := k.keyType,
    label := k.label, maskedKey := maskKey k.keyValue,
    baseUrl := k.baseUrl, model := k.model, isDefault := k.isDefault,
    isActive := k.isActive, createTime := k.createTime }

/-- The list endpoint: active keys of the user, mapped through
`toResponse` (`findByUserIdAndIsActiveTrue` modelled as the active
filter over the user's rows). -/
def listResponses (rows : List UserApiKey) : List ApiKeyResponse :=
  (rows.filter (fun k => k.isActive)).map toResponse

/-! ## Concrete inputs for witnesses of C3, C4, C5, C6, C9, C10 -/

/-- S4 scenario content (first call). -/
def c3Content1 : String := "用户是 Java 开发者"

/-- S4 scenario content (second call: same after trim). -/
def c3Content2 : String := "  用户是 Java 开发者  "

/-- The oracle of a session whose model answers "Hi." without tool
calls in every iteration. -/
def c4AnswerOracle : Nat → Message :=
  fun _ => { role := "assistant", content := some "Hi." }

/-- A concrete recall_memory tool call. -/
def recallCall : ToolCall :=
  { id := "c1", type := "function",
    function := { name := "recall_memory", arguments := "a" } }

/-- A concrete store_memory tool call. -/
def storeCall : ToolCall :=
  { id := "c2", type := "function",
    function := { name := "store_memory", arguments := "b" } }

/-- The oracle of a session whose model requests one tool call in every
iteration and never produces an answer (scenario S6). -/
def c4ToolOracle : Nat → Message :=
  fun _ => { role := "assistant", toolCalls := some [recallCall] }

/-- Assistant message with two tool calls, for the C5 witness. -/
def c5Assistant : Message :=
  { role := "assistant", toolCalls := some [recallCall, storeCall] }

/-- Tool executor for the C5 witness. -/
def c5ExecTool : ToolCall → String :=
  fun c => "result-" ++ c.id

/-- A 60-message context (as one initialize plus appends) for the C6
witness. -/
def c6Commands : List ContextOp :=
  [ContextOp.init [Message.system "sys", Message.user "task"],
   ContextOp.append ((List.range 58).map
     (fun k => Message.user (String.mk (List.replicate (k + 1) 'x'))))]

/-- Key row for the C10 witness (long key). -/
def c10Key : UserApiKey :=
  { id := some 1, provider := "openai", keyType := KeyType.LLM,
    label := some "main", keyValue := some "sk-secret-abc123",
    baseUrl := none, model := some "gpt-4o", isDefault := true,
    isActive := true, createTime := some "2026-01-01T00:00" }

/-- Same row with a different key value sharing the last six
characters. -/
def c10KeyVariant : UserApiKey :=
  { c10Key with keyValue := some "sk-other-xyzabc123" }

/-! ## Characterization of the streaming fold -/

theorem concatAll_aux (l : List String) (a : String) :
    List.foldl (· ++ ·) a l = a ++ concatAll l := by
  induction l generalizing a with
  | nil => simp [concatAll]
  | cons x xs ih =>
    show List.foldl (· ++ ·) (a ++ x) xs = a ++ concatAll (x :: xs)
    rw [ih (a ++ x)]
    have h2 : concatAll (x :: xs) = x ++ concatAll xs := by
      show List.foldl (· ++ ·) ("" ++ x) xs = x ++ concatAll xs
      rw [ih ("" ++ x)]
      simp
    rw [h2, String.append_assoc]

theorem concatAll_cons (x : String) (l : List String) :
    concatAll (x :: l) = x ++ concatAll l := by
  show List.foldl (· ++ ·) ("" ++ x) l = x ++ concatAll l
  rw [concatAll_aux]
  simp

/-- Field form of one streaming-loop pass over a parsed chunk. -/
theorem processChunk_eq (s : StreamState) (c : StreamingChunk) :
    processChunk s c =
      { content := s.content ++ (chunkContentDelta c).getD "",
        tokens := s.tokens ++ (chunkContentDelta c).toList,
        accs := applyToolCallDeltas s.accs (chunkToolCallDeltas c),
        respId := if s.respId = none then c.id else s.respId,
        respModel := if s.respModel = none then c.model else s.respModel,
        finish := match chunkFinish c with
          | some fr => some fr
          | none => s.finish } := by
  obtain ⟨cid, cobj, ccr, cmod, cch⟩ := c
  rcases cch with _ | ⟨_ | ⟨⟨chi, chd, chf⟩, chs⟩⟩
  · simp [processChunk, chunkContentDelta, chunkToolCallDeltas,
      chunkFinish, applyToolCallDeltas]
  · simp [processChunk, chunkContentDelta, chunkToolCallDeltas,
      chunkFinish, applyToolCallDeltas]
  · rcases chd with _ | ⟨dr, dc, dt⟩
    · cases chf <;>
        simp [processChunk, chunkContentDelta, chunkToolCallDeltas,
          chunkFinish, applyToolCallDeltas]
    · rcases dc with _ | t
      · cases chf <;> cases dt <;>
          simp [processChunk, chunkContentDelta, chunkToolCallDeltas,
            chunkFinish, applyToolCallDeltas]
      · by_cases ht : t = "" <;> cases chf <;> cases dt <;>
          simp [processChunk, chunkContentDelta, chunkToolCallDeltas,
            chunkFinish, applyToolCallDeltas, ht]

/-- The streaming fold, expressed frame-by-frame: every component of the
final loop state is a pure function of the starting state and the list
of processed chunks. -/
theorem processLines_eq (parse : String → Option StreamingChunk)
    (lines : List String) (s : StreamState) :
    processLines parse lines s =
      { content := s.content ++
          concatAll ((processedChunks parse lines).filterMap chunkContentDelta),
        tokens := s.tokens ++
          (processedChunks parse lines).filterMap chunkContentDelta,
        accs := applyToolCallDeltas s.accs
          ((processedChunks parse lines).flatMap chunkToolCallDeltas),
        respId := firstUpd s.respId
          ((processedChunks parse lines).map StreamingChunk.id),
        respModel := firstUpd s.respModel
          ((processedChunks parse lines).map StreamingChunk.model),
        finish := lastUpd s.finish
          ((processedChunks parse lines).map chunkFinish) } := by
  induction lines generalizing s with
  | nil =>
    simp [processLines, processedChunks, concatAll, applyToolCallDeltas,
      firstUpd, lastUpd]
  | cons line rest ih =>
    by_cases hskip : line.data = [] ∨ ¬ line.data.take 6 = sseDataPrefix.data
    · rw [processLines, if_pos hskip, processedChunks, if_pos hskip]
      exact ih s
    · by_cases hdone : line = sseDone
      · rw [processLines, if_neg hskip, if_pos hdone,
          processedChunks, if_neg hskip, if_pos hdone]
        simp [concatAll, applyToolCallDeltas, firstUpd, lastUpd]
      · rcases hp : parse (String.mk (line.data.drop 6)) with _ | c
        · rw [processLines, if_neg hskip, if_neg hdone,
            processedChunks, if_neg hskip, if_neg hdone, hp]
          dsimp only
          exact ih s
        · rw [processLines, if_neg hskip, if_neg hdone,
            processedChunks, if_neg hskip, if_neg hdone, hp]
          dsimp only
          rw [ih (processChunk s c), processChunk_eq]
          refine StreamState.mk.injEq .. ▸ ?_
          simp only [List.filterMap_cons, List.flatMap_cons, List.map_cons]
          constructor
          · rcases hc : chunkContentDelta c with _ | t <;>
              simp [hc, concatAll_cons, String.append_assoc]
          constructor
          · rcases hc : chunkContentDelta c with _ | t <;> simp [hc]
          constructor
          · simp [applyToolCallDeltas, List.foldl_append]
          constructor
          · simp [firstUpd]
          constructor
          · simp [firstUpd]
          · simp [lastUpd]

/-! ## The accumulator map: keys and per-index lookup -/

theorem updateAcc_keys (m : List (Int × ToolCallAccumulator)) (i : Int)
    (d : ToolCallDelta) :
    (updateAcc m i d).map Prod.fst =
      if i ∈ m.map Prod.fst then m.map Prod.fst
      else m.map Prod.fst ++ [i] := by
  induction m with
  | nil => simp [updateAcc]
  | cons p rest ih =>
    by_cases hp : p.1 = i
    · simp [updateAcc, hp]
    · rw [updateAcc, if_neg hp]
      by_cases hm : i ∈ rest.map Prod.fst
      · simp [hm, ih, Ne.symm hp]
      · simp [hm, ih, Ne.symm hp]

theorem dedupAux_congr (s1 s2 : List Int) (l : List Int)
    (h : ∀ x, x ∈ s1 ↔ x ∈ s2) : dedupAux s1 l = dedupAux s2 l := by
  induction l generalizing s1 s2 with
  | nil => simp [dedupAux]
  | cons i rest ih =>
    by_cases hi : i ∈ s1
    · rw [dedupAux, if_pos hi, dedupAux, if_pos ((h i).mp hi)]
      exact ih s1 s2 h
    · rw [dedupAux, if_neg hi, dedupAux, if_neg (fun hc => hi ((h i).mpr hc))]
      refine congrArg _ (ih _ _ ?_)
      intro x
      simp [h x]

theorem applyToolCallDeltas_keys (ds : List ToolCallDelta)
    (m : List (Int × ToolCallAccumulator)) :
    (applyToolCallDeltas m ds).map Prod.fst =
      m.map Prod.fst ++ dedupAux (m.map Prod.fst) (ds.map effIndex) := by
  induction ds generalizing m with
  | nil => simp [applyToolCallDeltas, dedupAux]
  | cons d rest ih =>
    have hstep : applyToolCallDeltas m (d :: rest) =
        applyToolCallDeltas (updateAcc m (effIndex d) d) rest := rfl
    rw [hstep, ih]
    rw [updateAcc_keys]
    by_cases hm : effIndex d ∈ m.map Prod.fst
    · rw [if_pos hm]
      simp only [List.map_cons, dedupAux, if_pos hm]
    · rw [if_neg hm]
      simp only [List.map_cons, dedupAux, if_neg hm, List.append_assoc,
        List.singleton_append]
      refine congrArg _ (congrArg _ (dedupAux_congr _ _ _ ?_))
      intro x
      simp [or_comm]

theorem lookupAcc_updateAcc (m : List (Int × ToolCallAccumulator))
    (j i : Int) (d : ToolCallDelta) :
    lookupAcc (updateAcc m j d) i =
      if j = i then some (applyToolCallDelta ((lookupAcc m i).getD {}) d)
      else lookupAcc m i := by
  induction m with
  | nil =>
    by_cases hji : j = i <;> simp [updateAcc, lookupAcc, hji]
  | cons p rest ih =>
    by_cases hp : p.1 = j
    · by_cases hji : j = i
      · subst hji
        simp [updateAcc, hp, lookupAcc]
      · rw [updateAcc, if_pos hp, lookupAcc, if_neg hji, if_neg hji,
          lookupAcc, if_neg (hp ▸ hji)]
    · rw [updateAcc, if_neg hp]
      by_cases hpi : p.1 = i
      · have hji : ¬ j = i := fun h => hp (h ▸ hpi)
        simp [lookupAcc, hpi, hji]
      · simp [lookupAcc, hpi, ih]

theorem accumFrom_step (o : Option ToolCallAccumulator) (d : ToolCallDelta)
    (ds : List ToolCallDelta) :
    accumFrom o (d :: ds) =
      accumFrom (some (applyToolCallDelta (o.getD {}) d)) ds := by
  cases o <;> rfl

theorem lookupAcc_applyToolCallDeltas (ds : List ToolCallDelta)
    (m : List (Int × ToolCallAccumulator)) (i : Int) :
    lookupAcc (applyToolCallDeltas m ds) i =
      accumFrom (lookupAcc m i) (ds.filter (fun d => effIndex d = i)) := by
  induction ds generalizing m with
  | nil => simp [applyToolCallDeltas, accumFrom]
  | cons d rest ih =>
    have hstep : applyToolCallDeltas m (d :: rest) =
        applyToolCallDeltas (updateAcc m (effIndex d) d) rest := rfl
    rw [hstep, ih, lookupAcc_updateAcc]
    by_cases hd : effIndex d = i
    · rw [if_pos hd]
      rw [List.filter_cons, if_pos (by simpa using hd), accumFrom_step]
    · rw [if_neg hd]
      rw [List.filter_cons, if_neg (by simpa using hd)]

/-! ## Auxiliary facts: dedup membership, string emptiness, last finish -/

theorem mem_dedupAux (x : Int) (seen l : List Int) :
    x ∈ dedupAux seen l ↔ x ∈ l ∧ x ∉ seen := by
  induction l generalizing seen with
  | nil => simp [dedupAux]
  | cons i rest ih =>
    by_cases hi : i ∈ seen
    · rw [dedupAux, if_pos hi, ih]
      constructor
      · rintro ⟨hx, hns⟩
        exact ⟨List.mem_cons_of_mem i hx, hns⟩
      · rintro ⟨hx, hns⟩
        rcases List.mem_cons.mp hx with hx | hx
        · exact absurd (hx ▸ hi) hns
        · exact ⟨hx, hns⟩
    · rw [dedupAux, if_neg hi]
      by_cases hxi : x = i
      · subst hxi
        simp [hi]
      · simp only [List.mem_cons, hxi, false_or, ih]

theorem sdata_append (a b : String) : (a ++ b).data = a.data ++ b.data := rfl

theorem seq_empty_iff (s : String) : s = "" ↔ s.data = [] := by
  constructor
  · intro h
    simp [h]
  · intro h
    cases s
    simp_all [String.ext_iff]

theorem sappend_eq_empty_iff (a b : String) :
    a ++ b = "" ↔ a = "" ∧ b = "" := by
  rw [seq_empty_iff, sdata_append, List.append_eq_nil, ← seq_empty_iff, ← seq_empty_iff]

theorem concatAll_eq_empty_iff (l : List String) :
    concatAll l = "" ↔ ∀ t ∈ l, t = "" := by
  induction l with
  | nil => simp [concatAll]
  | cons x xs ih => rw [concatAll_cons, sappend_eq_empty_iff, ih]; simp

theorem chunkContentDelta_ne_empty (c : StreamingChunk) (t : String)
    (h : chunkContentDelta c = some t) : t ≠ "" := by
  obtain ⟨cid, cobj, ccr, cmod, cch⟩ := c
  rcases cch with _ | ⟨_ | ⟨⟨chi, chd, chf⟩, chs⟩⟩
  · simp [chunkContentDelta] at h
  · simp [chunkContentDelta] at h
  · rcases chd with _ | ⟨dr, dc, dt⟩
    · simp [chunkContentDelta] at h
    · rcases dc with _ | u
      · simp [chunkContentDelta] at h
      · by_cases hu : u = ""
        · simp [chunkContentDelta, hu] at h
        · simp [chunkContentDelta, hu] at h
          exact h ▸ hu

theorem contentDeltas_ne_empty (parse : String → Option StreamingChunk)
    (lines : List String) :
    ∀ t ∈ contentDeltas parse lines, t ≠ "" := by
  intro t ht
  rw [contentDeltas, List.mem_filterMap] at ht
  obtain ⟨c, _, hc⟩ := ht
  exact chunkContentDelta_ne_empty c t hc

theorem lastUpd_of_dropLast_none (l : List (Option String)) (h : l ≠ [])
    (hd : ∀ o ∈ l.dropLast, o = none) :
    lastUpd none l = l.getLast h := by
  induction l with
  | nil => exact absurd rfl h
  | cons o rest ih =>
    cases rest with
    | nil => cases o <;> simp [lastUpd]
    | cons o2 rest2 =>
      have ho : o = none := hd o (by simp)
      subst ho
      have hstep : lastUpd none (none :: o2 :: rest2) =
          lastUpd none (o2 :: rest2) := rfl
      rw [hstep, List.getLast_cons (by simp)]
      refine ih (by simp) (fun x hx => hd x ?_)
      rw [List.dropLast_cons₂]
      exact List.mem_cons_of_mem _ hx

theorem accumFrom_isSome (ds : List ToolCallDelta) (a : ToolCallAccumulator) :
    accumFrom (some a) ds = some (ds.foldl applyToolCallDelta a) := by
  induction ds generalizing a with
  | nil => simp [accumFrom]
  | cons d rest ih => rw [accumFrom, ih, List.foldl_cons]

theorem accumFrom_none_of_ne (ds : List ToolCallDelta) (h : ds ≠ []) :
    accumFrom none ds = some (ds.foldl applyToolCallDelta {}) := by
  cases ds with
  | nil => exact absurd rfl h
  | cons d rest => rw [accumFrom, accumFrom_isSome, List.foldl_cons]

theorem sempty_append (s : String) : "" ++ s = s := by
  rw [String.ext_iff, sdata_append]
  rfl

theorem dedupAux_nil_iff (l : List Int) : dedupAux [] l = [] ↔ l = [] := by
  cases l <;> simp [dedupAux]

theorem lastUpd_map_finish (cs : List StreamingChunk) (h : cs ≠ [])
    (hd : ∀ c ∈ cs.dropLast, chunkFinish c = none) :
    lastUpd none (cs.map chunkFinish) = chunkFinish (cs.getLast h) := by
  induction cs with
  | nil => exact absurd rfl h
  | cons c rest ih =>
    cases rest with
    | nil =>
      rcases hc : chunkFinish c with _ | f <;> simp [lastUpd, hc]
    | cons c2 rest2 =>
      have hc : chunkFinish c = none := hd c (by simp)
      have hstep : lastUpd none ((c :: c2 :: rest2).map chunkFinish) =
          lastUpd none ((c2 :: rest2).map chunkFinish) := by
        simp only [List.map_cons, hc]
        rfl
      rw [hstep, List.getLast_cons (by simp)]
      refine ih (by simp) (fun x hx => hd x ?_)
      rw [List.dropLast_cons₂]
      exact List.mem_cons_of_mem _ hx

theorem filterMap_eq_map_of_some {α β : Type} (l : List Int)
    (g : Int → Option α) (h : α → β) (dflt : α)
    (hg : ∀ i ∈ l, g i ≠ none) :
    l.filterMap (fun i => (g i).map h) =
      l.map (fun i => h ((g i).getD dflt)) := by
  induction l with
  | nil => simp
  | cons i rest ih =>
    rcases hgi : g i with _ | a
    · exact absurd hgi (hg i (by simp))
    · rw [List.filterMap_cons, List.map_cons]
      simp only [hgi, Option.map_some, Option.getD_some]
      exact congrArg _ (ih (fun j hj => hg j (by simp [hj])))

/-! ## Claim C1 -/

/-- C1 (confirmed): for every SSE frame sequence that represents a
well-formed response (the stream processes at least one frame, and only
the last processed frame carries a finish reason), `streamChat` returns
the response assembled under non-streaming semantics: the assistant
message's content is the concatenation of all non-empty content deltas
in arrival order (null if no content arrived), its tool calls are built
from the per-index accumulators in ascending index order, the finish
reason of the last frame is propagated, and the `onToken` invocations,
in order, are exactly the non-empty content deltas, so their
concatenation is the response content. -/
theorem streamChat_reassembly_roundTrip
    (parse : String → Option StreamingChunk) (lines : List String)
    (hne : processedChunks parse lines ≠ [])
    (hwf : ∀ c ∈ (processedChunks parse lines).dropLast, chunkFinish c = none) :
    (assembleStreamingResponse parse lines).2 = contentDeltas parse lines ∧
    concatAll (assembleStreamingResponse parse lines).2 =
      concatAll (contentDeltas parse lines) ∧
    respFirstMessage (assembleStreamingResponse parse lines).1 =
      some { role := "assistant",
             content := if contentDeltas parse lines = [] then none
                        else some (concatAll (contentDeltas parse lines)),
             toolCalls := if allDeltas parse lines = [] then none
                          else some ((ascendingIndices parse lines).map
                            (fun i => mkToolCall ((specAccAt parse lines i).getD {}))),
             toolCallId := none } ∧
    respFirstFinish (assembleStreamingResponse parse lines).1 =
      chunkFinish ((processedChunks parse lines).getLast hne) ∧
    (ascendingIndices parse lines).Sorted (· ≤ ·) ∧
    (∀ i, i ∈ ascendingIndices parse lines ↔
      i ∈ (allDeltas parse lines).map effIndex) := by
  have hs := processLines_eq parse lines {}
  set cds := contentDeltas parse lines with hcds
  set tds := allDeltas parse lines with htds
  have hcontent : (processLines parse lines {}).content = concatAll cds := by
    rw [hs]
    exact sempty_append _
  have htokens : (processLines parse lines {}).tokens = cds := by
    rw [hs]
    rfl
  have haccs : (processLines parse lines {}).accs =
      applyToolCallDeltas [] tds := by
    rw [hs]
    rfl
  have hfin : (processLines parse lines {}).finish =
      chunkFinish ((processedChunks parse lines).getLast hne) := by
    rw [hs]
    exact lastUpd_map_finish _ hne hwf
  have hempty : concatAll cds = "" ↔ cds = [] := by
    rw [concatAll_eq_empty_iff]
    constructor
    · intro hall
      rcases hc : cds with _ | ⟨x, xs⟩
      · rfl
      · exact absurd (hall x (by rw [hc]; simp))
          (contentDeltas_ne_empty parse lines x (by rw [← hcds, hc]; simp))
    · intro h
      rw [h]
      simp
  have hkeys : (applyToolCallDeltas [] tds).map Prod.fst =
      dedupAux [] (tds.map effIndex) := by
    have := applyToolCallDeltas_keys tds []
    simpa using this
  have hlook : ∀ i, lookupAcc (applyToolCallDeltas [] tds) i =
      specAccAt parse lines i := by
    intro i
    rw [lookupAcc_applyToolCallDeltas]
    rfl
  have haccs_nil : applyToolCallDeltas [] tds = [] ↔ tds = [] := by
    constructor
    · intro h
      have h2 : (applyToolCallDeltas [] tds).map Prod.fst = [] := by
        rw [h]
        rfl
      rw [hkeys, dedupAux_nil_iff, List.map_eq_nil_iff] at h2
      exact h2
    · intro h
      rw [h]
      rfl
  have hmem_asc : ∀ i, i ∈ ascendingIndices parse lines ↔
      i ∈ tds.map effIndex := by
    intro i
    rw [ascendingIndices, sortKeys, List.mem_insertionSort, mem_dedupAux]
    simp
  have hsome : ∀ i ∈ ascendingIndices parse lines,
      specAccAt parse lines i ≠ none := by
    intro i hi
    rw [hmem_asc i, List.mem_map] at hi
    obtain ⟨d, hd, hdi⟩ := hi
    have hmemf : d ∈ tds.filter (fun d => effIndex d = i) :=
      List.mem_filter.mpr ⟨hd, by simp [hdi]⟩
    have hne2 : tds.filter (fun d => effIndex d = i) ≠ [] :=
      List.ne_nil_of_mem hmemf
    rw [specAccAt, deltasAt, ← htds, accumFrom_none_of_ne _ hne2]
    simp
  have htc : buildToolCalls (applyToolCallDeltas [] tds) =
      (if tds = [] then none
       else some ((ascendingIndices parse lines).map
         (fun i => mkToolCall ((specAccAt parse lines i).getD {})))) := by
    by_cases hnil : tds = []
    · rw [if_pos hnil, buildToolCalls,
        if_pos (haccs_nil.mpr hnil)]
    · rw [if_neg hnil, buildToolCalls,
        if_neg (fun hc => hnil (haccs_nil.mp hc)), hkeys]
      have hfm := filterMap_eq_map_of_some (ascendingIndices parse lines)
        (specAccAt parse lines) mkToolCall {} hsome
      have hrw : ∀ i, (lookupAcc (applyToolCallDeltas [] tds) i).map mkToolCall =
          (specAccAt parse lines i).map mkToolCall := by
        intro i
        rw [hlook i]
      refine congrArg some ?_
      calc (sortKeys (dedupAux [] (tds.map effIndex))).filterMap
            (fun i => (lookupAcc (applyToolCallDeltas [] tds) i).map mkToolCall)
          = (ascendingIndices parse lines).filterMap
            (fun i => (specAccAt parse lines i).map mkToolCall) := by
            rw [ascendingIndices, ← htds]
            exact List.filterMap_congr (fun i _ => hrw i)
        _ = (ascendingIndices parse lines).map
            (fun i => mkToolCall ((specAccAt parse lines i).getD {})) := hfm
  refine ⟨?_, ?_, ?_, ?_, ?_, hmem_asc⟩
  · rw [assembleStreamingResponse]
    exact htokens
  · rw [assembleStreamingResponse]
    rw [htokens]
  · rw [assembleStreamingResponse]
    simp only [buildResponse, respFirstMessage]
    rw [hcontent, haccs, htc]
    by_cases hnilc : cds = []
    · rw [if_pos hnilc, if_pos (hempty.mpr hnilc)]
    · rw [if_neg hnilc, if_neg (fun hc => hnilc (hempty.mp hc))]
  · rw [assembleStreamingResponse]
    simp only [buildResponse, respFirstFinish]
    exact hfin
  · rw [ascendingIndices, sortKeys]
    exact List.sorted_insertionSort _ _

/-- C1 witness: the round-trip theorem applied to the concrete stream
`c1Lines`, with both well-formedness hypotheses discharged by
computation. -/
theorem streamChat_reassembly_roundTrip_witness :
    (processedChunks c1Parse c1Lines ≠ []) ∧
    (∀ c ∈ (processedChunks c1Parse c1Lines).dropLast, chunkFinish c = none) ∧
    (assembleStreamingResponse c1Parse c1Lines).2 = contentDeltas c1Parse c1Lines :=
  ⟨by decide, by decide,
    (streamChat_reassembly_roundTrip c1Parse c1Lines (by decide) (by decide)).1⟩

/-! ## Claim C2 -/

theorem sappend_empty (s : String) : s ++ "" = s := by
  rw [String.ext_iff, sdata_append]
  simp

theorem applyToolCallDelta_fields (a : ToolCallAccumulator) (d : ToolCallDelta) :
    applyToolCallDelta a d =
      { id := d.id.getD a.id, type := d.type.getD a.type,
        name := (deltaName d).getD a.name,
        args := a.args ++ ((deltaArgs d).getD "") } := by
  obtain ⟨di, dd, dt, df⟩ := d
  rcases df with _ | ⟨fn, fa⟩
  · cases dd <;> cases dt <;>
      simp [applyToolCallDelta, deltaName, deltaArgs, sappend_empty]
  · cases dd <;> cases dt <;> cases fn <;> cases fa <;>
      simp [applyToolCallDelta, deltaName, deltaArgs, sappend_empty]

theorem foldl_applyToolCallDelta (ds : List ToolCallDelta)
    (a : ToolCallAccumulator) :
    ds.foldl applyToolCallDelta a =
      { id := lastSet a.id (ds.map ToolCallDelta.id),
        type := lastSet a.type (ds.map ToolCallDelta.type),
        name := lastSet a.name (ds.map deltaName),
        args := a.args ++ concatAll (ds.filterMap deltaArgs) } := by
  induction ds generalizing a with
  | nil =>
    obtain ⟨i0, t0, n0, r0⟩ := a
    simp [lastSet, concatAll, sappend_empty]
  | cons d rest ih =>
    rw [List.foldl_cons, ih, applyToolCallDelta_fields]
    simp only [List.map_cons, List.filterMap_cons]
    refine ToolCallAccumulator.mk.injEq .. ▸ ?_
    refine ⟨?_, ?_, ?_, ?_⟩
    · rcases d.id with _ | x <;> simp [lastSet]
    · rcases d.type with _ | x <;> simp [lastSet]
    · rcases deltaName d with _ | x <;> simp [lastSet]
    · rcases deltaArgs d with _ | x
      · simp [sappend_empty]
      · simp only [Option.getD_some, concatAll_cons]
        rw [String.append_assoc]

theorem dedupAux_nodup (seen l : List Int) : (dedupAux seen l).Nodup := by
  induction l generalizing seen with
  | nil => simp [dedupAux]
  | cons i rest ih =>
    by_cases hi : i ∈ seen
    · rw [dedupAux, if_pos hi]
      exact ih seen
    · rw [dedupAux, if_neg hi]
      refine List.Nodup.cons ?_ (ih (i :: seen))
      intro hc
      exact ((mem_dedupAux i (i :: seen) rest).mp hc).2 (by simp)

/-- C2 (corrected): tool-call deltas are grouped by index with one
accumulator per index (the key list of the accumulator map is exactly
the distinct effective indices, without duplicates), and for each index
the accumulator's `id`, `type` and function name are those of the LAST
delta for that index that carries them non-null (not the first — later
non-null fragments overwrite), while every non-null arguments fragment
is appended in arrival order. -/
theorem toolCall_accumulator_lastWins
    (parse : String → Option StreamingChunk) (lines : List String) (i : Int)
    (h : i ∈ (allDeltas parse lines).map effIndex) :
    ((processLines parse lines {}).accs.map Prod.fst).Nodup ∧
    lookupAcc (processLines parse lines {}).accs i = specAccAt parse lines i ∧
    specAccAt parse lines i =
      some { id := lastSet "" ((deltasAt parse lines i).map ToolCallDelta.id),
             type := lastSet "function" ((deltasAt parse lines i).map ToolCallDelta.type),
             name := lastSet "" ((deltasAt parse lines i).map deltaName),
             args := concatAll ((deltasAt parse lines i).filterMap deltaArgs) } := by
  have hs := processLines_eq parse lines {}
  have haccs : (processLines parse lines {}).accs =
      applyToolCallDeltas [] (allDeltas parse lines) := by
    rw [hs]
    rfl
  have hdne : deltasAt parse lines i ≠ [] := by
    rw [List.mem_map] at h
    obtain ⟨d, hd, hdi⟩ := h
    exact List.ne_nil_of_mem
      (List.mem_filter.mpr ⟨hd, by simp [hdi]⟩)
  refine ⟨?_, ?_, ?_⟩
  · rw [haccs]
    have hk := applyToolCallDeltas_keys (allDeltas parse lines) []
    simp only [List.map_nil, List.nil_append] at hk
    rw [hk]
    exact dedupAux_nodup _ _
  · rw [haccs, lookupAcc_applyToolCallDeltas]
    rfl
  · rw [specAccAt, accumFrom_none_of_ne _ hdne, foldl_applyToolCallDelta]
    refine congrArg some ?_
    refine ToolCallAccumulator.mk.injEq .. ▸ ⟨rfl, rfl, rfl, ?_⟩
    exact sempty_append _

/-- C2 counterexample: the claim says the accumulator's `id` is the one
established by the first delta for its index (here `"a"`) and that later
deltas only append to `arguments`; on this stream the assembled tool
call instead carries the id of the second delta, `"b"`. -/
theorem toolCall_firstDelta_counterexample :
    respFirstMessage (assembleStreamingResponse c2Parse c2Lines).1 =
      some { role := "assistant", content := none, toolCallId := none,
             toolCalls := some [{ id := "b", type := "function",
                                  function := { name := "", arguments := "" } }] } ∧
    ¬ respFirstMessage (assembleStreamingResponse c2Parse c2Lines).1 =
      some { role := "assistant", content := none, toolCallId := none,
             toolCalls := some [{ id := "a", type := "function",
                                  function := { name := "", arguments := "" } }] } := by
  constructor
  · decide
  · decide

/-- C2 witness: the amended accumulator semantics evaluated on the
counterexample stream (index 0 occurs, and its accumulator takes the
last non-null id). -/
theorem toolCall_accumulator_lastWins_witness :
    ((0 : Int) ∈ (allDeltas c2Parse c2Lines).map effIndex) ∧
    specAccAt c2Parse c2Lines 0 =
      some { id := lastSet "" ((deltasAt c2Parse c2Lines 0).map ToolCallDelta.id),
             type := lastSet "function" ((deltasAt c2Parse c2Lines 0).map ToolCallDelta.type),
             name := lastSet "" ((deltasAt c2Parse c2Lines 0).map deltaName),
             args := concatAll ((deltasAt c2Parse c2Lines 0).filterMap deltaArgs) } :=
  ⟨by decide,
    (toolCall_accumulator_lastWins c2Parse c2Lines 0 (by decide)).2.2⟩

/-! ## Claims C3 and C9: store_memory dedup -/

theorem executeStoreMemoryTool_success_eq (rp : Bool) (seen : List String)
    (content : String)
    (h1 : javaIsBlank content = false)
    (h2 : normalizeForDedupe content ∉ seen)
    (h3 : ∀ e ∈ seen, prefixOf (normalizeForDedupe content) storeMemoryPrefixLen ≠
      prefixOf e storeMemoryPrefixLen) :
    executeStoreMemoryTool rp seen content =
      { seen := normalizeForDedupe content :: seen,
        reply := "Memory stored successfully.", stored := rp } := by
  have h3b : seen.any (fun existing =>
      prefixOf (normalizeForDedupe content) storeMemoryPrefixLen =
      prefixOf existing storeMemoryPrefixLen) = false := by
    rw [List.any_eq_false]
    intro e he
    simpa using h3 e he
  simp [executeStoreMemoryTool, h1, h2, h3b]

theorem executeStoreMemoryTool_dup_eq (rp : Bool) (seen : List String)
    (content : String)
    (h1 : javaIsBlank content = false)
    (h2 : normalizeForDedupe content ∈ seen) :
    executeStoreMemoryTool rp seen content =
      { seen := seen,
        reply := "Memory already stored previously; skipping duplicate. Reply to the user now.",
        stored := false } := by
  simp [executeStoreMemoryTool, h1, h2]

theorem executeStoreMemoryTool_reject_eq (rp : Bool) (seen : List String)
    (content : String)
    (h1 : javaIsBlank content = false)
    (h3 : ∃ e ∈ seen, prefixOf (normalizeForDedupe content) storeMemoryPrefixLen =
      prefixOf e storeMemoryPrefixLen) :
    (executeStoreMemoryTool rp seen content).stored = false ∧
    (executeStoreMemoryTool rp seen content).seen = seen := by
  by_cases h2 : normalizeForDedupe content ∈ seen
  · rw [executeStoreMemoryTool_dup_eq rp seen content h1 h2]
    exact ⟨rfl, rfl⟩
  · have h3b : seen.any (fun existing =>
        prefixOf (normalizeForDedupe content) storeMemoryPrefixLen =
        prefixOf existing storeMemoryPrefixLen) = true := by
      rw [List.any_eq_true]
      obtain ⟨e, he, hpe⟩ := h3
      exact ⟨e, he, by simpa using hpe⟩
    simp [executeStoreMemoryTool, h1, h2, h3b]

theorem executeStoreMemoryTool_success_conditions (rp : Bool)
    (seen : List String) (content : String)
    (hr : (executeStoreMemoryTool rp seen content).reply =
      "Memory stored successfully.") :
    javaIsBlank content = false ∧
    normalizeForDedupe content ∉ seen ∧
    executeStoreMemoryTool rp seen content =
      { seen := normalizeForDedupe content :: seen,
        reply := "Memory stored successfully.", stored := rp } := by
  by_cases h1 : javaIsBlank content = true
  · rw [executeStoreMemoryTool, if_pos h1] at hr
    simp at hr
  · rw [Bool.not_eq_true] at h1
    by_cases h2 : normalizeForDedupe content ∈ seen
    · rw [executeStoreMemoryTool_dup_eq rp seen content h1 h2] at hr
      simp at hr
    · by_cases h3 : seen.any (fun existing =>
          prefixOf (normalizeForDedupe content) storeMemoryPrefixLen =
          prefixOf existing storeMemoryPrefixLen) = true
      · rw [executeStoreMemoryTool, if_neg (by simp [h1])] at hr
        rw [if_neg h2, if_pos h3] at hr
        simp at hr
      · refine ⟨h1, h2, ?_⟩
        refine executeStoreMemoryTool_success_eq rp seen content h1 h2 ?_
        rw [Bool.not_eq_true, List.any_eq_false] at h3
        intro e he
        simpa using h3 e he

/-- C3 counterexample: in an S4 run (two contents equal after
normalization, first call succeeds), the second call is rejected with
the message
"Memory already stored previously; skipping duplicate. Reply to the user now." —
which is not the claimed exact message
"Memory already stored previously; skipping duplicate.". -/
theorem storeMemory_dedup_message_counterexample :
    (executeStoreMemoryTool true (executeStoreMemoryTool true [] c3Content1).seen
        c3Content2).reply =
      "Memory already stored previously; skipping duplicate. Reply to the user now." ∧
    ¬ (executeStoreMemoryTool true (executeStoreMemoryTool true [] c3Content1).seen
        c3Content2).reply =
      "Memory already stored previously; skipping duplicate." := by
  constructor
  · decide
  · decide

/-- C3 (corrected): within one session, for two store_memory calls
whose contents are equal after normalization (trim, lower-case,
collapse whitespace), of which the first completes normally, exactly
one insertion occurs: the first call inserts (when the store is up),
and the second performs no insertion, leaves the dedup set unchanged,
and returns
"Memory already stored previously; skipping duplicate. Reply to the user now."
(the claimed message plus a trailing "Reply to the user now." sentence).
A call whose normalized content's 15-character prefix equals the prefix
of any already-stored content is likewise rejected without insertion. -/
theorem storeMemory_dedup (rp1 rp2 : Bool) (seen : List String)
    (content1 content2 : String)
    (hnorm : normalizeForDedupe content1 = normalizeForDedupe content2)
    (hblank2 : javaIsBlank content2 = false)
    (hfirst : (executeStoreMemoryTool rp1 seen content1).reply =
      "Memory stored successfully.") :
    (executeStoreMemoryTool rp1 seen content1).stored = rp1 ∧
    (executeStoreMemoryTool rp2 (executeStoreMemoryTool rp1 seen content1).seen
        content2).reply =
      "Memory already stored previously; skipping duplicate. Reply to the user now." ∧
    (executeStoreMemoryTool rp2 (executeStoreMemoryTool rp1 seen content1).seen
        content2).stored = false ∧
    (executeStoreMemoryTool rp2 (executeStoreMemoryTool rp1 seen content1).seen
        content2).seen = (executeStoreMemoryTool rp1 seen content1).seen ∧
    (∀ (rp3 : Bool) (seen2 : List String) (content3 : String),
      javaIsBlank content3 = false →
      (∃ e ∈ seen2, prefixOf (normalizeForDedupe content3) storeMemoryPrefixLen =
        prefixOf e storeMemoryPrefixLen) →
      (executeStoreMemoryTool rp3 seen2 content3).stored = false ∧
      (executeStoreMemoryTool rp3 seen2 content3).seen = seen2) := by
  obtain ⟨h1, h2, heq⟩ :=
    executeStoreMemoryTool_success_conditions rp1 seen content1 hfirst
  have hmem : normalizeForDedupe content2 ∈
      (executeStoreMemoryTool rp1 seen content1).seen := by
    rw [heq, ← hnorm]
    exact List.mem_cons_self _ _
  have hdup := executeStoreMemoryTool_dup_eq rp2
    (executeStoreMemoryTool rp1 seen content1).seen content2 hblank2 hmem
  refine ⟨by rw [heq], by rw [hdup], by rw [hdup], by rw [hdup], ?_⟩
  intro rp3 seen2 content3 hb3 hex
  exact executeStoreMemoryTool_reject_eq rp3 seen2 content3 hb3 hex

/-- C3 witness: the S4 scenario contents, with the store available. -/
theorem storeMemory_dedup_witness :
    (normalizeForDedupe c3Content1 = normalizeForDedupe c3Content2 ∧
     javaIsBlank c3Content2 = false ∧
     (executeStoreMemoryTool true [] c3Content1).reply =
       "Memory stored successfully.") ∧
    ((executeStoreMemoryTool true [] c3Content1).stored = true ∧
     (executeStoreMemoryTool true (executeStoreMemoryTool true [] c3Content1).seen
         c3Content2).stored = false) :=
  ⟨⟨by decide, by decide, by decide⟩,
    ⟨(storeMemory_dedup true true [] c3Content1 c3Content2
        (by decide) (by decide) (by decide)).1,
     (storeMemory_dedup true true [] c3Content1 c3Content2
        (by decide) (by decide) (by decide)).2.2.1⟩⟩

/-- C9 (confirmed): a store_memory call with non-blank content that
passes the dedup checks returns "Memory stored successfully." and adds
the normalized content to the per-session dedup set regardless of
whether `remember` persisted anything (`rememberPersists` may be
false: Milvus down or insert failed — remember never throws to its
caller), and a later call with the same content is then rejected as a
duplicate although no memory was ever persisted. -/
theorem storeMemory_phantom_success (rp : Bool) (seen : List String)
    (content : String)
    (hblank : javaIsBlank content = false)
    (hpfx : ∀ e ∈ seen, prefixOf (normalizeForDedupe content) storeMemoryPrefixLen ≠
      prefixOf e storeMemoryPrefixLen) :
    (executeStoreMemoryTool rp seen content).reply =
      "Memory stored successfully." ∧
    normalizeForDedupe content ∈ (executeStoreMemoryTool rp seen content).seen ∧
    (executeStoreMemoryTool rp seen content).stored = rp ∧
    (∀ rp2 : Bool,
      (executeStoreMemoryTool rp2 (executeStoreMemoryTool rp seen content).seen
          content).reply =
        "Memory already stored previously; skipping duplicate. Reply to the user now." ∧
      (executeStoreMemoryTool rp2 (executeStoreMemoryTool rp seen content).seen
          content).stored = false) := by
  have h2 : normalizeForDedupe content ∉ seen := by
    intro hc
    exact hpfx (normalizeForDedupe content) hc rfl
  have heq := executeStoreMemoryTool_success_eq rp seen content hblank h2 hpfx
  have hmem : normalizeForDedupe content ∈
      (executeStoreMemoryTool rp seen content).seen := by
    rw [heq]
    exact List.mem_cons_self _ _
  refine ⟨by rw [heq], hmem, by rw [heq], ?_⟩
  intro rp2
  have hdup := executeStoreMemoryTool_dup_eq rp2
    (executeStoreMemoryTool rp seen content).seen content hblank hmem
  exact ⟨by rw [hdup], by rw [hdup]⟩

/-- C9 witness: store unavailable (`rememberPersists = false`), yet the
tool reports success and the rerun is rejected as duplicate. -/
theorem storeMemory_phantom_success_witness :
    (javaIsBlank c3Content1 = false) ∧
    (executeStoreMemoryTool false [] c3Content1).reply =
      "Memory stored successfully." ∧
    (executeStoreMemoryTool false [] c3Content1).stored = false ∧
    (executeStoreMemoryTool false (executeStoreMemoryTool false [] c3Content1).seen
        c3Content1).reply =
      "Memory already stored previously; skipping duplicate. Reply to the user now." :=
  ⟨by decide,
   (storeMemory_phantom_success false [] c3Content1 (by decide) (by simp)).1,
   (storeMemory_phantom_success false [] c3Content1 (by decide) (by simp)).2.2.1,
   ((storeMemory_phantom_success false [] c3Content1 (by decide) (by simp)).2.2.2 false).1⟩

/-! ## Claim C4: iteration bound -/

theorem runThinkAndActLoop_bound (oracle : Nat → Message) (k : Nat) :
    ∀ n, maxIterations - n = k → n < maxIterations →
      (runThinkAndActLoop oracle n).2 ≤ maxIterations ∧
      ((runThinkAndActLoop oracle n).1 = none →
        (∀ i, hasToolCallsMsg (oracle i) = false → (oracle i).content ≠ none) →
        (runThinkAndActLoop oracle n).2 = maxIterations) := by
  induction k with
  | zero =>
    intro n hk hn
    exact absurd hk (by omega)
  | succ k ih =>
    intro n hk hn
    rw [runThinkAndActLoop]
    cases hm : hasToolCallsMsg (oracle (n + 1)) with
    | false =>
      simp only [hm, if_false, Bool.false_eq_true]
      constructor
      · exact hn
      · intro hnone hwf
        exact absurd hnone (hwf (n + 1) hm)
    | true =>
      simp only [hm, if_true]
      by_cases hge : maxIterations ≤ n + 1
      · rw [if_pos hge]
        exact ⟨hn, fun _ _ => Nat.le_antisymm hn hge⟩
      · rw [if_neg hge]
        exact ih (n + 1) (by omega) (by omega)

/-- C4 (confirmed): for a session that stays RUNNING with counter 0 and
an LLM that always produces either tool calls or a final answer with
content, the inner loop executes at most 30 (`MAX_ITERATIONS`)
iterations; if it returns null the counter is exactly 30 and
`executeLoop` marks the session FAILED with reason
"Max iterations (30) reached without final answer.", and otherwise it
returns the answer and the session is marked COMPLETED with that answer
as result. -/
theorem iteration_bound (oracle : Nat → Message)
    (hwf : ∀ i, hasToolCallsMsg (oracle i) = false → (oracle i).content ≠ none) :
    (runThinkAndActLoop oracle 0).2 ≤ maxIterations ∧
    (∀ a, (runThinkAndActLoop oracle 0).1 = some a →
      executeLoop oracle =
        { status := SessionStatus.COMPLETED, result := some a,
          errorMessage := none,
          iterationCount := (runThinkAndActLoop oracle 0).2 }) ∧
    ((runThinkAndActLoop oracle 0).1 = none →
      (runThinkAndActLoop oracle 0).2 = maxIterations ∧
      executeLoop oracle =
        { status := SessionStatus.FAILED, result := none,
          errorMessage := some "Max iterations (30) reached without final answer.",
          iterationCount := maxIterations }) := by
  have hb := runThinkAndActLoop_bound oracle (maxIterations - 0) 0 rfl
    (by simp [maxIterations])
  refine ⟨hb.1, ?_, ?_⟩
  · intro a ha
    rw [executeLoop]
    simp only [ha]
  · intro hnone
    have h30 := hb.2 hnone hwf
    refine ⟨h30, ?_⟩
    rw [executeLoop]
    simp only [hnone, h30]

/-- C4 witness: the always-tool-calling oracle of scenario S6 (the
well-formedness hypothesis holds vacuously), bounded by 30. -/
theorem iteration_bound_witness :
    (∀ i, hasToolCallsMsg (c4ToolOracle i) = false →
      (c4ToolOracle i).content ≠ none) ∧
    (runThinkAndActLoop c4ToolOracle 0).2 ≤ maxIterations :=
  ⟨by intro i h; simp [c4ToolOracle, hasToolCallsMsg] at h,
   (iteration_bound c4ToolOracle
     (by intro i h; simp [c4ToolOracle, hasToolCallsMsg] at h)).1⟩

/-! ## Claim C5: atomic tool-batch append -/

theorem foldl_toAppend (f : ToolCall → Message) (l : List ToolCall)
    (acc : List Message) :
    l.foldl (fun acc c => acc ++ [f c]) acc = acc ++ l.map f := by
  induction l generalizing acc with
  | nil => simp
  | cons c rest ih =>
    rw [List.foldl_cons, ih, List.map_cons]
    simp

/-- C5 (confirmed): in an iteration whose assistant message contains
tool calls, the decide/act phase issues exactly one context-store
write, an append whose argument list is the assistant message followed
by one tool-result message (`role=tool`, `tool_call_id = call.id`,
`content = tool output`) per call, in arrival order; an iteration ending
in a final answer writes nothing to the context store. -/
theorem atomic_toolBatch_append (assistantMessage : Message)
    (execTool : ToolCall → String) (calls : List ToolCall)
    (hc : assistantMessage.toolCalls = some calls) (hne : calls ≠ []) :
    iterationContextWrites assistantMessage execTool =
      [ContextOp.append (assistantMessage ::
        calls.map (fun c => Message.toolResult c.id (execTool c)))] ∧
    (∀ m : Message, m.toolCalls = none →
      iterationContextWrites m execTool = []) := by
  constructor
  · have htc : hasToolCallsMsg assistantMessage = true := by
      rw [hasToolCallsMsg, hc]
      cases calls with
      | nil => exact absurd rfl hne
      | cons c rest => rfl
    rw [iterationContextWrites, if_pos htc, hc]
    simp only [Option.getD_some]
    rw [foldl_toAppend]
    rfl
  · intro m hm
    have htc : hasToolCallsMsg m = false := by
      rw [hasToolCallsMsg, hm]
    rw [iterationContextWrites, if_neg (by simp [htc])]

/-- C5 witness: an assistant message carrying two tool calls produces
the single append of assistant ++ two tool results, in call order. -/
theorem atomic_toolBatch_append_witness :
    (c5Assistant.toolCalls = some [recallCall, storeCall] ∧
     ([recallCall, storeCall] : List ToolCall) ≠ []) ∧
    iterationContextWrites c5Assistant c5ExecTool =
      [ContextOp.append (c5Assistant ::
        ([recallCall, storeCall].map
          (fun c => Message.toolResult c.id (c5ExecTool c))))] :=
  ⟨⟨by decide, by decide⟩,
   (atomic_toolBatch_append c5Assistant c5ExecTool [recallCall, storeCall]
     (by decide) (by decide)).1⟩

/-! ## Claim C6: context trim invariant -/

theorem trim_length (l : List Message) : (trim l).length ≤ maxContextMessages := by
  by_cases hle : l.length ≤ maxContextMessages
  · rw [trim.eq_def, if_pos hle]
    exact hle
  · rw [trim.eq_def, if_neg hle]
    cases l with
    | nil => simp [maxContextMessages]
    | cons m0 rest =>
      dsimp only
      by_cases hsys : m0.role = "system"
      · rw [if_pos hsys]
        simp only [List.length_cons, List.length_drop]
        simp only [List.length_cons, not_le] at hle
        simp [maxContextMessages] at *
        omega
      · rw [if_neg hsys]
        simp only [List.length_drop]
        omega

theorem applyCtxCommand_length (stored : List Message) (cmd : ContextOp) :
    (applyCtxCommand stored cmd).length ≤ maxContextMessages := by
  cases cmd with
  | init msgs => exact trim_length msgs
  | append msgs => exact trim_length (stored ++ msgs)

/-- C6 (confirmed): after any non-empty sequence of initialize/append
store calls the persisted context has at most 50
(`MAX_CONTEXT_MESSAGES`) messages, and whenever the list fed to `trim`
starts with a system message, that same message is at index 0
afterwards, with the remaining kept messages forming a suffix of the
original list (the most recent ones, in their original order). -/
theorem context_trim_invariant (cmds : List ContextOp)
    (stored ctx rest : List Message) (m0 : Message)
    (hne : cmds ≠ []) (hctx : ctx = m0 :: rest) (hsys : m0.role = "system") :
    (applyCtxCommands stored cmds).length ≤ maxContextMessages ∧
    (trim ctx).head? = some m0 ∧
    (trim ctx).length ≤ maxContextMessages ∧
    (∃ k, (trim ctx).tail = ctx.drop k) := by
  refine ⟨?_, ?_, trim_length ctx, ?_⟩
  · induction cmds generalizing stored with
    | nil => exact absurd rfl hne
    | cons cmd restCmds ih =>
      cases restCmds with
      | nil => exact applyCtxCommand_length stored cmd
      | cons cmd2 rest2 =>
        exact ih (applyCtxCommand stored cmd) (by simp)
  · subst hctx
    by_cases hle : (m0 :: rest).length ≤ maxContextMessages
    · rw [trim.eq_def, if_pos hle]
      rfl
    · rw [trim.eq_def, if_neg hle]
      dsimp only
      rw [if_pos hsys]
      rfl
  · subst hctx
    by_cases hle : (m0 :: rest).length ≤ maxContextMessages
    · rw [trim.eq_def, if_pos hle]
      exact ⟨1, by simp⟩
    · rw [trim.eq_def, if_neg hle]
      dsimp only
      rw [if_pos hsys]
      exact ⟨(m0 :: rest).length - (maxContextMessages - 1), rfl⟩

/-- C6 witness: two store calls growing a 2-message context by 58
messages, and a 2-message system-headed context for the trim part. -/
theorem context_trim_invariant_witness :
    (c6Commands ≠ [] ∧
     ([Message.system "s", Message.user "u"] : List Message) =
       Message.system "s" :: [Message.user "u"] ∧
     (Message.system "s").role = "system") ∧
    (applyCtxCommands [] c6Commands).length ≤ maxContextMessages ∧
    (trim [Message.system "s", Message.user "u"]).head? =
      some (Message.system "s") :=
  ⟨⟨by decide, by decide, by decide⟩,
   (context_trim_invariant c6Commands [] [Message.system "s", Message.user "u"]
     [Message.user "u"] (Message.system "s") (by decide) (by decide) (by decide)).1,
   (context_trim_invariant c6Commands [] [Message.system "s", Message.user "u"]
     [Message.user "u"] (Message.system "s") (by decide) (by decide) (by decide)).2.1⟩

/-! ## Claim C7: retry configuration -/

/-- C7 (code bug): the configured retry gives 3 attempts in total and
is triggered only by `IOException` (never by a 4xx response — those
surface as `LlmException`/`LlmRateLimitException`, both
`RuntimeException`s), but the waits between attempts are a constant
1 s, 1 s — not the exponential 1 s, 2 s that the claim (and the comment
right above the configuration) promises: `.waitDuration(1 s)` without
an interval function yields a fixed interval. -/
theorem retry_backoff_constant :
    llmRetryConfig.maxAttempts = 3 ∧
    retryWaits llmRetryConfig = [1000, 1000] ∧
    retryWaits llmRetryConfig ≠ specBackoffWaits ∧
    (∀ s : Nat, retryOn (clientThrow (LlmFailure.providerStatus s)) = false) ∧
    retryOn (clientThrow LlmFailure.rateLimited) = false ∧
    (∀ k : ThrownKind, retryAttempts llmRetryConfig k ≤ 3) := by
  refine ⟨rfl, by decide, by decide, fun s => rfl, rfl, ?_⟩
  intro k
  cases k <;> simp [retryAttempts, retryOn, llmRetryConfig]

/-! ## Claim C8: session save under optimistic-version collisions -/

/-- C8 counterexample: against a row whose first save collides but
whose second would succeed, the code performs exactly one
refetch-then-save and surfaces the failure immediately, whereas the
claimed retry-up-to-3 behaviour would have saved again and succeeded. -/
theorem session_save_retry_counterexample :
    persistSession (fun k => if k = 0 then SaveOutcome.conflict else SaveOutcome.ok) =
      ([RepoStep.refetchById, RepoStep.save], false) ∧
    specRetryPersist (fun k => if k = 0 then SaveOutcome.conflict else SaveOutcome.ok) =
      ([RepoStep.refetchById, RepoStep.save, RepoStep.refetchById,
        RepoStep.save], true) ∧
    persistSession (fun k => if k = 0 then SaveOutcome.conflict else SaveOutcome.ok) ≠
      specRetryPersist (fun k => if k = 0 then SaveOutcome.conflict else SaveOutcome.ok) := by
  refine ⟨by decide, by decide, by decide⟩

/-- C8 (corrected): saving a session row refetches the row by primary
id and saves exactly once; an optimistic-version collision on that
single save is surfaced immediately to the caller — there is no retry. -/
theorem session_save_no_retry (outcome : Nat → SaveOutcome) :
    (persistSession outcome).1 = [RepoStep.refetchById, RepoStep.save] ∧
    ((persistSession outcome).1.count RepoStep.save) = 1 ∧
    ((persistSession outcome).2 = true ↔ outcome 0 = SaveOutcome.ok) := by
  refine ⟨rfl, ?_, ?_⟩
  · show List.count RepoStep.save [RepoStep.refetchById, RepoStep.save] = 1
    decide
  · simp [persistSession]

/-! ## Claim C10: API-key masking -/

/-- C10 (confirmed): every response DTO of the user API-key endpoints
exposes at most the last 6 characters of the stored key value:
`maskedKey` is `"******"` for a null or ≤6-character key and
`"sk-***..."` followed by the last 6 characters otherwise; the response
record has no `keyValue` field, and two rows that differ only in their
key value — with the same visible part — produce identical responses
(so nothing beyond the last 6 characters can flow out). -/
theorem apiKey_masking (k1 k2 : UserApiKey) (v1 v2 : String)
    (hkv1 : k1.keyValue = some v1) (hkv2 : k2.keyValue = some v2)
    (hlen1 : 6 < v1.data.length) (hlen2 : 6 < v2.data.length)
    (hsuffix : v1.data.drop (v1.data.length - 6) = v2.data.drop (v2.data.length - 6))
    (hrest : { k1 with keyValue := none } = { k2 with keyValue := none }) :
    (toResponse k1).maskedKey =
      "sk-***..." ++ String.mk (v1.data.drop (v1.data.length - 6)) ∧
    toResponse k1 = toResponse k2 ∧
    listResponses [k1] = listResponses [k2] ∧
    (∀ (j : UserApiKey) (w : String), j.keyValue = some w →
      w.data.length ≤ 6 → (toResponse j).maskedKey = "******") ∧
    (∀ j : UserApiKey, j.keyValue = none → (toResponse j).maskedKey = "******") := by
  have hmask1 : maskKey k1.keyValue =
      "sk-***..." ++ String.mk (v1.data.drop (v1.data.length - 6)) := by
    rw [hkv1, maskKey, if_neg (by omega)]
  have hmask2 : maskKey k2.keyValue =
      "sk-***..." ++ String.mk (v2.data.drop (v2.data.length - 6)) := by
    rw [hkv2, maskKey, if_neg (by omega)]
  have hmaskeq : maskKey k1.keyValue = maskKey k2.keyValue := by
    rw [hmask1, hmask2, hsuffix]
  have hfield : ∀ {α : Type} (f : UserApiKey → α),
      (∀ kv kv2 : Option String, f { k1 with keyValue := kv } =
        f { k2 with keyValue := kv2 }) → f k1 = f k2 := by
    intro α f hf
    have h1 : f k1 = f { k1 with keyValue := k1.keyValue } := rfl
    have h2 : f k2 = f { k2 with keyValue := k2.keyValue } := rfl
    rw [h1, h2, hkv1, hkv2]
    exact hf (some v1) (some v2)
  have hresp : toResponse k1 = toResponse k2 := by
    obtain ⟨i1, p1, t1, l1, kv1, b1, m1, d1, a1, c1⟩ := k1
    obtain ⟨i2, p2, t2, l2, kv2, b2, m2, d2, a2, c2⟩ := k2
    simp only [UserApiKey.mk.injEq] at hrest
    obtain ⟨e1, e2, e3, e4, _, e5, e6, e7, e8, e9⟩ := hrest
    simp only [toResponse, ApiKeyResponse.mk.injEq]
    simp only at hmaskeq
    exact ⟨e1, e2, e3, e4, hmaskeq, e5, e6, e7, e8, e9⟩
  refine ⟨by rw [toResponse]; exact hmask1, hresp, ?_, ?_, ?_⟩
  · have hact : k1.isActive = k2.isActive := by
      obtain ⟨i1, p1, t1, l1, kv1, b1, m1, d1, a1, c1⟩ := k1
      obtain ⟨i2, p2, t2, l2, kv2, b2, m2, d2, a2, c2⟩ := k2
      simp only [UserApiKey.mk.injEq] at hrest
      simp only
      exact hrest.2.2.2.2.2.2.2.2.1
    rw [listResponses, listResponses]
    cases ha : k2.isActive with
    | false => simp [List.filter, hact, ha]
    | true => simp [List.filter, hact, ha, hresp]
  · intro j w hw hlenw
    rw [toResponse]
    simp only
    rw [hw, maskKey, if_pos hlenw]
  · intro j hj
    rw [toResponse]
    simp only
    rw [hj, maskKey]

/-- C10 witness: two concrete rows whose 16- and 18-character keys
share the suffix `abc123` yield the same masked response. -/
theorem apiKey_masking_witness :
    (c10Key.keyValue = some "sk-secret-abc123" ∧
     c10KeyVariant.keyValue = some "sk-other-xyzabc123" ∧
     { c10Key with keyValue := none } = { c10KeyVariant with keyValue := none }) ∧
    toResponse c10Key = toResponse c10KeyVariant :=
  ⟨⟨by decide, by decide, by decide⟩,
   (apiKey_masking c10Key c10KeyVariant "sk-secret-abc123" "sk-other-xyzabc123"
     (by decide) (by decide) (by decide) (by decide) (by decide) (by decide)).2.1⟩

end Aimate
